import Mathlib

/-!
Verification development for the two instrument drivers of this repository:
`Kusg245_250A` (Kuhne Electronic 2.45 GHz microwave generator) and
`Keithley705` (Keithley 705 scanner).  Each driver is embedded shallowly:
property setters become functions from the user value to the wire command
string (or to `Except String String` where validation may raise), and the
composite methods become explicit traces of emitted events.
-/

namespace Pymeasure

/-- Python `round(q)` (banker's rounding / round-half-to-even) on an exact
rational, producing an integer. -/
def pyRound (q : ℚ) : ℤ :=
  if q - ⌊q⌋ < 1 / 2 then ⌊q⌋
  else if q - ⌊q⌋ > 1 / 2 then ⌊q⌋ + 1
  else if ⌊q⌋ % 2 = 0 then ⌊q⌋ else ⌊q⌋ + 1

/-- Python `round(q, -1)` on an exact rational: round to the nearest multiple
of ten, ties to the even multiple. -/
def roundTens (q : ℚ) : ℚ := 10 * pyRound (q / 10)

/-- Python `int(q)` / the conversion applied by a `%d` format directive:
truncation toward zero. -/
def int_of (q : ℚ) : ℤ := if 0 ≤ q then ⌊q⌋ else ⌈q⌉

/-- The string produced by the format directive `%0{w}d` for a nonnegative
integer `n < 10^w`: exactly the `w` base-10 digits of `n`, most significant
first, zero-padded. -/
def pad (w : ℕ) (n : ℕ) : String :=
  ⟨(List.range w).reverse.map (fun i => Char.ofNat (48 + n / 10 ^ i % 10))⟩

/-- Numeric readback of a digit string: base-10 value of its characters. -/
def decodeDigits (s : String) : ℕ :=
  s.data.foldl (fun a c => 10 * a + (c.toNat - 48)) 0

/-- Modelled from the spec: the pymeasure validator `strict_discrete_set`
(declared in `pymeasure/instruments/validators.py`, which is not under
`src/`).  Per the spec's error-handling design, it raises on out-of-domain
input before any wire write occurs, and returns the value unchanged when it
belongs to the declared set. -/
def strict_discrete_set {α : Type} [DecidableEq α] (v : α) (values : List α) :
    Except String α :=
  if v ∈ values then .ok v else .error "ValueError"

/-- Modelled from the spec: the pymeasure validator `truncated_range`
(not under `src/`).  Per the spec's glossary it clamps an out-of-range input
to the nearest valid bound rather than rejecting it. -/
def truncated_range (v lo hi : ℚ) : ℚ := max lo (min v hi)

/-- Modelled from the spec: the pymeasure validator `truncated_discrete_set`
(not under `src/`).  Per the spec's glossary it clamps an input that is not in
the declared set to the nearest valid value rather than rejecting it (never
raising); on an empty set there is no valid value. -/
def truncated_discrete_set (v : ℚ) : List ℚ → Option ℚ
  | [] => none
  | x :: xs => some (xs.foldl (fun best y => if |y - v| < |best - v| then y else best) x)


end Pymeasure

namespace Kusg245_250A

open Pymeasure

/-- Driver state established by `Kusg245_250A.__init__`: the stored power
limit `_power_limit` and the dynamic validator range
`power_setpoint_values`. -/
structure State where
  power_limit : ℚ
  power_setpoint_values : ℚ × ℚ
deriving DecidableEq

/-- `Kusg245_250A.__init__`: `assert 0 < power_limit <= 250`, then store the
limit and set `power_setpoint_values = [0, power_limit]`. -/
def init (power_limit : ℚ) : Except String State :=
  if 0 < power_limit ∧ power_limit ≤ 250 then
    .ok ⟨power_limit, (0, power_limit)⟩
  else .error "AssertionError"

/-- `set_process` of `external_enabled`: `{True: "R", False: "r"}[v]`. -/
def external_enabled_cmd (v : Bool) : String := if v then "R" else "r"

/-- Setter of `external_enabled`: `strict_discrete_set` over
`[False, True]`, then the `set_process` map, emitted via format `"%s"`. -/
def external_enabled_set (v : Bool) : Except String String :=
  (strict_discrete_set v [false, true]).map external_enabled_cmd

/-- `set_process` of `bias_enabled`: `{True: "X", False: "x"}[v]`. -/
def bias_enabled_cmd (v : Bool) : String := if v then "X" else "x"

/-- Setter of `bias_enabled`: `strict_discrete_set` over `[False, True]`,
then the `set_process` map, emitted via format `"%s"`. -/
def bias_enabled_set (v : Bool) : Except String String :=
  (strict_discrete_set v [false, true]).map bias_enabled_cmd

/-- `set_process` of `rf_enabled`: `{True: "O", False: "o"}[v]`. -/
def rf_enabled_cmd (v : Bool) : String := if v then "O" else "o"

/-- Setter of `rf_enabled`: `strict_discrete_set` over `[False, True]`,
then the `set_process` map, emitted via format `"%s"`. -/
def rf_enabled_set (v : Bool) : Except String String :=
  (strict_discrete_set v [false, true]).map rf_enabled_cmd

/-- Numeric value emitted by the `frequency_coarse` setter:
`truncated_range` over `[2400, 2500]`, converted by the `%04d` directive. -/
def frequency_coarse_num (v : ℚ) : ℤ := int_of (truncated_range v 2400 2500)

/-- Wire command of the `frequency_coarse` setter: `"f%04d"`. -/
def frequency_coarse_set (v : ℚ) : String :=
  "f" ++ pad 4 (frequency_coarse_num v).toNat

/-- Numeric value emitted by the `frequency_fine` setter: `truncated_range`
over `[2400000, 2500000]`, then `set_process = round(v, -1)`. -/
def frequency_fine_num (v : ℚ) : ℚ := roundTens (truncated_range v 2400000 2500000)

/-- Wire command of the `frequency_fine` setter: `"f%07d"`. -/
def frequency_fine_set (v : ℚ) : String :=
  "f" ++ pad 7 (int_of (frequency_fine_num v)).toNat

/-- Numeric value emitted by the `power_setpoint` setter: `truncated_range`
over the dynamic `power_setpoint_values` stored in the driver state. -/
def power_setpoint_num (s : State) (v : ℚ) : ℤ :=
  int_of (truncated_range v s.power_setpoint_values.1 s.power_setpoint_values.2)

/-- Wire command of the `power_setpoint` setter: `"A%03d"`. -/
def power_setpoint_set (s : State) (v : ℚ) : String :=
  "A" ++ pad 3 (power_setpoint_num s v).toNat

/-- Numeric value emitted by the `pulse_width` setter: `truncated_range`
over `[10, 1000]`, then `set_process = round(2 * v, -1) / 2`. -/
def pulse_width_num (v : ℚ) : ℚ := roundTens (2 * truncated_range v 10 1000) / 2

/-- Wire command of the `pulse_width` setter: `"C%04d"`. -/
def pulse_width_set (v : ℚ) : String :=
  "C" ++ pad 4 (int_of (pulse_width_num v)).toNat

/-- Numeric value emitted by the `off_time` setter: `truncated_range` over
`[10, 1000]`, then `set_process = round(2 * v, -1) / 2`. -/
def off_time_num (v : ℚ) : ℚ := roundTens (2 * truncated_range v 10 1000) / 2

/-- Wire command of the `off_time` setter: `"c%04d"`. -/
def off_time_set (v : ℚ) : String :=
  "c" ++ pad 4 (int_of (off_time_num v)).toNat

/-- Byte emitted by the `phase_shift` setter: `truncated_range` over
`[0, 358.6]`, then `set_process = round(v / 360 * 256)`. -/
def phase_shift_num (v : ℚ) : ℤ := pyRound (truncated_range v 0 358.6 / 360 * 256)

/-- Wire command of the `phase_shift` setter: `"H%03d"`. -/
def phase_shift_set (v : ℚ) : String :=
  "H" ++ pad 3 (phase_shift_num v).toNat

/-- `get_process` of `phase_shift`: `v / 256 * 360`. -/
def phase_shift_get (b : ℚ) : ℚ := b / 256 * 360

/-- The `values` dictionary of `reflection_limit`:
`{0: 0, 100: 1, 150: 2, 180: 3, 200: 4, 230: 5}`. -/
def reflection_limit_values : List (ℚ × ℤ) :=
  [(0, 0), (100, 1), (150, 2), (180, 3), (200, 4), (230, 5)]

/-- Setter of `reflection_limit`: `truncated_discrete_set` over the keys of
the `values` dictionary, the result mapped (`map_values=True`) to its wire
code, emitted via `"B%d"`. -/
def reflection_limit_set (v : ℚ) : Option String :=
  match truncated_discrete_set v (reflection_limit_values.map Prod.fst) with
  | none => none
  | some w =>
      match reflection_limit_values.find? (fun p => decide (p.1 = w)) with
      | none => none
      | some p => some ("B" ++ toString p.2)

/-- `Kusg245_250A.tune(power)`: `truncated_range` over
`[0, self._power_limit]`, then `write("b%03d")`; the state is untouched. -/
def tune (s : State) (power : ℚ) : State × List String :=
  (s, ["b" ++ pad 3 (int_of (truncated_range power 0 s.power_limit)).toNat])

/-- `Kusg245_250A.clear_VSWR_error()`: `write("z")`; the state is untouched. -/
def clear_VSWR_error (s : State) : State × List String := (s, ["z"])

/-- `Kusg245_250A.store_settings()`: `write("SE")`; the state is untouched. -/
def store_settings (s : State) : State × List String := (s, ["SE"])

/-- An observable event of a composite method: a wire write or a
`time.sleep` of a number of seconds. -/
inductive Event where
  | write (cmd : String)
  | sleep (seconds : ℚ)
deriving DecidableEq

/-- `Kusg245_250A.shutdown()`: `rf_enabled = False` then
`bias_enabled = False`; the state is untouched. -/
def shutdown (s : State) : State × List Event :=
  (s, [.write (rf_enabled_cmd false), .write (bias_enabled_cmd false)])

/-- `Kusg245_250A.turn_on()`: `bias_enabled = True`, then
`time.sleep(0.500)`, then `rf_enabled = True`; the state is untouched. -/
def turn_on (s : State) : State × List Event :=
  (s, [.write (bias_enabled_cmd true), .sleep 0.5, .write (rf_enabled_cmd true)])

/-- Amplifier bias / RF-output status as toggled by the wire commands
`X`/`x` (bias on/off) and `O`/`o` (RF on/off). -/
structure AmpState where
  bias : Bool
  rf : Bool
deriving DecidableEq

/-- Effect of one event on the amplifier status. -/
def applyEvent (a : AmpState) : Event → AmpState
  | .write c =>
      if c = "X" then { a with bias := true }
      else if c = "x" then { a with bias := false }
      else if c = "O" then { a with rf := true }
      else if c = "o" then { a with rf := false }
      else a
  | .sleep _ => a

/-- All amplifier statuses reached along a trace of events, the starting
status included. -/
def statesAlong (a : AmpState) (evs : List Event) : List AmpState :=
  List.scanl applyEvent a evs

end Kusg245_250A

namespace Keithley705

open Pymeasure

/-- `Keithley705.__init__`: `self.channels = tuple(range(1, 21))`. -/
def channels : List ℤ := (List.range 20).map (fun i : ℕ => (i : ℤ) + 1)

/-- `Keithley705.open_channel(channel)`: `write(f"N{channel}X")`. -/
def open_channel (channel : ℤ) : String := "N" ++ toString channel ++ "X"

/-- `Keithley705.close_channel(channel)`: `write(f"C{channel}X")`. -/
def close_channel (channel : ℤ) : String := "C" ++ toString channel ++ "X"

/-- `Keithley705.exclusive_close(channel)`: `open_channel(c)` for every
`c` in `self.channels` with `c != channel`, in order, then
`close_channel(channel)`.  The list collects the wire commands written. -/
def exclusive_close (channel : ℤ) : List String :=
  (channels.filter (fun c => decide (c ≠ channel))).map open_channel
    ++ [close_channel channel]

/-- Setter of `number_of_poles`: `strict_discrete_set` over `(0, 1, 2, 4)`,
emitted via `"A%dX"`. -/
def number_of_poles_set (v : ℤ) : Except String String :=
  (strict_discrete_set v [0, 1, 2, 4]).map (fun w => "A" ++ toString w ++ "X")

end Keithley705


namespace Pymeasure

theorem pyRound_dist_le (q : ℚ) : |(pyRound q : ℚ) - q| ≤ 1 / 2 := by
  have h0 : (⌊q⌋ : ℚ) ≤ q := Int.floor_le q
  have h1 : q < ⌊q⌋ + 1 := Int.lt_floor_add_one q
  unfold pyRound
  split_ifs with ha hb hc
  · rw [abs_le]; constructor <;> linarith
  · rw [abs_le]; push_cast; constructor <;> linarith
  · rw [abs_le]; constructor <;> linarith
  · rw [abs_le]; push_cast; constructor <;> linarith

theorem pyRound_nearest (q : ℚ) (k : ℤ) :
    |(pyRound q : ℚ) - q| ≤ |(k : ℚ) - q| := by
  rcases eq_or_ne k (pyRound q) with rfl | hne
  · exact le_refl _
  · have hz : (1 : ℤ) ≤ |k - pyRound q| := by
      rcases lt_or_gt_of_ne (sub_ne_zero_of_ne hne) with h | h
      · rw [abs_of_neg h]; omega
      · rw [abs_of_pos h]; omega
    have h1 : (1 : ℚ) ≤ |(k : ℚ) - (pyRound q : ℚ)| := by exact_mod_cast hz
    have h2 := pyRound_dist_le q
    have h3 : |(k : ℚ) - (pyRound q : ℚ)| ≤ |(k : ℚ) - q| + |q - (pyRound q : ℚ)| :=
      abs_sub_le _ q _
    have h4 : |q - (pyRound q : ℚ)| = |(pyRound q : ℚ) - q| := abs_sub_comm _ _
    linarith

theorem pyRound_intCast (k : ℤ) : pyRound (k : ℚ) = k := by
  unfold pyRound
  simp [Int.floor_intCast]

theorem roundTens_dist_le (q : ℚ) : |roundTens q - q| ≤ 5 := by
  have h := pyRound_dist_le (q / 10)
  have : roundTens q - q = 10 * ((pyRound (q / 10) : ℚ) - q / 10) := by
    unfold roundTens; ring
  rw [this, abs_mul]
  rw [abs_of_nonneg (by norm_num : (0:ℚ) ≤ 10)]
  linarith

theorem int_of_intCast (k : ℤ) : int_of (k : ℚ) = k := by
  unfold int_of
  split_ifs
  · exact Int.floor_intCast k
  · exact Int.ceil_intCast k

theorem truncated_range_eq_self {v lo hi : ℚ} (h1 : lo ≤ v) (h2 : v ≤ hi) :
    truncated_range v lo hi = v := by
  unfold truncated_range
  rw [min_eq_left h2, max_eq_right h1]

theorem truncated_range_eq_lo {v lo hi : ℚ} (h1 : v < lo) :
    truncated_range v lo hi = lo := by
  unfold truncated_range
  rw [max_eq_left (le_trans (min_le_left v hi) (le_of_lt h1))]

theorem truncated_range_eq_hi {v lo hi : ℚ} (h1 : hi < v) (h2 : lo ≤ hi) :
    truncated_range v lo hi = hi := by
  unfold truncated_range
  rw [min_eq_right (le_of_lt h1), max_eq_right h2]

theorem truncated_range_mem {v lo hi : ℚ} (h : lo ≤ hi) :
    lo ≤ truncated_range v lo hi ∧ truncated_range v lo hi ≤ hi :=
  ⟨le_max_left lo _, max_le h (min_le_right v hi)⟩

theorem char_digit_toNat (d : ℕ) (h : d < 10) : (Char.ofNat (48 + d)).toNat = 48 + d := by
  interval_cases d <;> decide

theorem char_digit_isDigit (d : ℕ) (h : d < 10) : (Char.ofNat (48 + d)).isDigit = true := by
  interval_cases d <;> decide

theorem pad_length (w n : ℕ) : (pad w n).length = w := by
  simp [pad, String.length]

theorem pad_isDigit (w n : ℕ) : ∀ c ∈ (pad w n).data, c.isDigit = true := by
  intro c hc
  simp only [pad, List.mem_map] at hc
  obtain ⟨i, _, rfl⟩ := hc
  exact char_digit_isDigit _ (Nat.mod_lt _ (by norm_num))

theorem foldl_digits (n : ℕ) : ∀ w a : ℕ,
    (List.range w).reverse.foldl (fun x i => 10 * x + n / 10 ^ i % 10) a
      = a * 10 ^ w + n % 10 ^ w := by
  intro w
  induction w with
  | zero => intro a; simp [Nat.mod_one]
  | succ w ih =>
      intro a
      rw [List.range_succ, List.reverse_append]
      simp only [List.reverse_cons, List.reverse_nil, List.nil_append, List.cons_append,
        List.foldl_cons, List.nil_append]
      rw [ih]
      have hmul : n % (10 ^ w * 10) = n % 10 ^ w + 10 ^ w * (n / 10 ^ w % 10) := Nat.mod_mul
      rw [pow_succ, hmul]
      ring

theorem decode_pad (w n : ℕ) : decodeDigits (pad w n) = n % 10 ^ w := by
  unfold decodeDigits pad
  show ((List.range w).reverse.map (fun i => Char.ofNat (48 + n / 10 ^ i % 10))).foldl
      (fun a c => 10 * a + (c.toNat - 48)) 0 = n % 10 ^ w
  rw [List.foldl_map]
  have hfun : (fun (a : ℕ) (i : ℕ) =>
      10 * a + ((Char.ofNat (48 + n / 10 ^ i % 10)).toNat - 48))
      = fun (a : ℕ) (i : ℕ) => 10 * a + n / 10 ^ i % 10 := by
    funext a i
    rw [char_digit_toNat _ (Nat.mod_lt _ (by norm_num))]
    omega
  rw [hfun, foldl_digits]
  simp

end Pymeasure

namespace Keithley705

open Pymeasure

theorem mem_channels {k : ℤ} : k ∈ channels ↔ 1 ≤ k ∧ k ≤ 20 := by
  rw [channels, @List.mem_map ℕ ℤ k (fun i : ℕ => (i : ℤ) + 1) (List.range 20)]
  constructor
  · rintro ⟨i, hi, rfl⟩
    rw [List.mem_range] at hi
    omega
  · intro h
    exact ⟨(k - 1).toNat, List.mem_range.mpr (by omega), by omega⟩

theorem channels_sorted : channels.Sorted (· < ·) := by decide

/-- C5: for a channel `c` in `1..20`, `exclusive_close(c)` writes one open
command `N{k}X` for each of the 19 channels `k ≠ c` in ascending order,
followed by the single close command `C{c}X`, and nothing else. -/
theorem exclusive_close_in_range (c : ℤ) (h1 : 1 ≤ c) (h2 : c ≤ 20) :
    ∃ l : List ℤ,
      exclusive_close c = l.map (fun k => "N" ++ toString k ++ "X")
          ++ ["C" ++ toString c ++ "X"] ∧
      l.length = 19 ∧ l.Sorted (· < ·) ∧ c ∉ l ∧
      ∀ k : ℤ, k ∈ l ↔ (1 ≤ k ∧ k ≤ 20 ∧ k ≠ c) := by
  refine ⟨channels.filter (fun k => decide (k ≠ c)), rfl, ?_, ?_, ?_, ?_⟩
  · interval_cases c <;> decide
  · exact List.Pairwise.filter _ channels_sorted
  · simp [List.mem_filter]
  · intro k
    rw [List.mem_filter]
    simp only [decide_eq_true_eq, mem_channels]
    tauto

theorem exclusive_close_in_range_witness :
    ((1 : ℤ) ≤ 7 ∧ (7 : ℤ) ≤ 20) ∧
    ∃ l : List ℤ,
      exclusive_close 7 = l.map (fun k => "N" ++ toString k ++ "X")
          ++ ["C" ++ toString (7 : ℤ) ++ "X"] ∧
      l.length = 19 ∧ l.Sorted (· < ·) ∧ (7 : ℤ) ∉ l ∧
      ∀ k : ℤ, k ∈ l ↔ (1 ≤ k ∧ k ≤ 20 ∧ k ≠ 7) :=
  ⟨by decide, exclusive_close_in_range 7 (by decide) (by decide)⟩

/-- C9: for a channel `c` outside `1..20`, `exclusive_close(c)` does not
reject the argument: it writes an open command for all twenty channels and
then the close command `C{c}X` verbatim. -/
theorem exclusive_close_out_of_range (c : ℤ) (h : c < 1 ∨ 20 < c) :
    exclusive_close c = channels.map (fun k => "N" ++ toString k ++ "X")
        ++ ["C" ++ toString c ++ "X"] ∧
    channels.length = 20 := by
  constructor
  · unfold exclusive_close
    have : channels.filter (fun k => decide (k ≠ c)) = channels := by
      apply List.filter_eq_self.mpr
      intro a ha
      have := mem_channels.mp ha
      simp only [decide_eq_true_eq]
      omega
    rw [this]
    rfl
  · decide

theorem exclusive_close_out_of_range_witness :
    exclusive_close 21 = channels.map (fun k => "N" ++ toString k ++ "X")
        ++ ["C" ++ toString (21 : ℤ) ++ "X"] ∧
    channels.length = 20 :=
  exclusive_close_out_of_range 21 (by decide)

end Keithley705

namespace Kusg245_250A

open Pymeasure

/-- C2: after a successful construction with integer `power_limit`, the
numeric value emitted on the wire by the `power_setpoint` setter for an
integer input `v` is `v` clamped to `[0, power_limit]`: inputs below `0`
become `0`, inputs above `power_limit` become `power_limit`, and in-range
inputs are sent unchanged. -/
theorem power_setpoint_clamps (pl v : ℤ) (h1 : 0 < pl) (h2 : pl ≤ 250) :
    ∃ s : State, init (pl : ℚ) = .ok s ∧
      power_setpoint_num s (v : ℚ) = max 0 (min v pl) ∧
      power_setpoint_set s (v : ℚ) = "A" ++ pad 3 (max 0 (min v pl)).toNat ∧
      (v < 0 → power_setpoint_num s (v : ℚ) = 0) ∧
      (pl < v → power_setpoint_num s (v : ℚ) = pl) ∧
      (0 ≤ v → v ≤ pl → power_setpoint_num s (v : ℚ) = v) := by
  have key : power_setpoint_num ⟨(pl : ℚ), (0, (pl : ℚ))⟩ (v : ℚ) = max 0 (min v pl) := by
    show int_of (truncated_range (v : ℚ) 0 (pl : ℚ)) = max 0 (min v pl)
    have hcast : truncated_range (v : ℚ) 0 (pl : ℚ) = ((max 0 (min v pl) : ℤ) : ℚ) := by
      unfold truncated_range
      push_cast
      rfl
    rw [hcast, int_of_intCast]
  refine ⟨⟨(pl : ℚ), (0, (pl : ℚ))⟩, ?_, key, ?_, ?_, ?_, ?_⟩
  · have hc : 0 < (pl : ℚ) ∧ (pl : ℚ) ≤ 250 :=
      ⟨by exact_mod_cast h1, by exact_mod_cast h2⟩
    unfold init
    rw [if_pos hc]
  · unfold power_setpoint_set
    rw [key]
  · intro h; rw [key]; omega
  · intro h; rw [key]; omega
  · intro h h'; rw [key]; omega

theorem power_setpoint_clamps_witness :
    ((0 : ℤ) < 100 ∧ (100 : ℤ) ≤ 250) ∧
    ∃ s : State, init ((100 : ℤ) : ℚ) = .ok s ∧
      power_setpoint_num s ((200 : ℤ) : ℚ) = max 0 (min 200 100) ∧
      power_setpoint_set s ((200 : ℤ) : ℚ) = "A" ++ pad 3 (max 0 (min 200 100) : ℤ).toNat ∧
      ((200 : ℤ) < 0 → power_setpoint_num s ((200 : ℤ) : ℚ) = 0) ∧
      ((100 : ℤ) < 200 → power_setpoint_num s ((200 : ℤ) : ℚ) = 100) ∧
      ((0 : ℤ) ≤ 200 → (200 : ℤ) ≤ 100 → power_setpoint_num s ((200 : ℤ) : ℚ) = 200) :=
  ⟨by decide, power_setpoint_clamps 100 200 (by decide) (by decide)⟩

/-- C10: the constructor asserts `0 < power_limit <= 250` (raising
`AssertionError` otherwise), on success stores
`power_setpoint_values = [0, power_limit]`, and no subsequent method of the
class modifies the driver state. -/
theorem init_asserts_and_state_invariant :
    (∀ power_limit : ℚ, (power_limit ≤ 0 ∨ 250 < power_limit) →
        init power_limit = .error "AssertionError") ∧
    (∀ power_limit : ℚ, 0 < power_limit → power_limit ≤ 250 →
        init power_limit = .ok ⟨power_limit, (0, power_limit)⟩) ∧
    (∀ s p, (tune s p).1 = s) ∧
    (∀ s, (clear_VSWR_error s).1 = s) ∧
    (∀ s, (store_settings s).1 = s) ∧
    (∀ s, (shutdown s).1 = s) ∧
    (∀ s, (turn_on s).1 = s) := by
  refine ⟨?_, ?_, fun s p => rfl, fun s => rfl, fun s => rfl, fun s => rfl, fun s => rfl⟩
  · intro pl h
    unfold init
    rw [if_neg]
    rintro ⟨hc1, hc2⟩
    rcases h with h | h <;> linarith
  · intro pl h1 h2
    unfold init
    rw [if_pos ⟨h1, h2⟩]

theorem init_asserts_witness :
    init 300 = Except.error "AssertionError" ∧
    init 100 = Except.ok ⟨100, (0, 100)⟩ :=
  ⟨init_asserts_and_state_invariant.1 300 (by norm_num),
   init_asserts_and_state_invariant.2.1 100 (by norm_num) (by norm_num)⟩

/-- C3: for `v` in the valid range `[0, 358.6]`, composing the
`phase_shift` set-encoding `round(v / 360 * 256)` with the get-decoding
`byte / 256 * 360` yields a value within one encoding step
`360 / 256 = 1.40625` degrees of `v`. -/
theorem phase_shift_roundtrip (v : ℚ) (h1 : 0 ≤ v) (h2 : v ≤ 358.6) :
    |phase_shift_get ((phase_shift_num v : ℤ) : ℚ) - v| ≤ 360 / 256 := by
  unfold phase_shift_num phase_shift_get
  rw [truncated_range_eq_self h1 h2]
  have h := pyRound_dist_le (v / 360 * 256)
  have key : ((pyRound (v / 360 * 256) : ℤ) : ℚ) / 256 * 360 - v
      = ((pyRound (v / 360 * 256) : ℚ) - v / 360 * 256) * (360 / 256) := by
    ring
  rw [key, abs_mul, abs_of_nonneg (by norm_num : (0 : ℚ) ≤ 360 / 256)]
  nlinarith [abs_nonneg ((pyRound (v / 360 * 256) : ℚ) - v / 360 * 256)]

theorem phase_shift_roundtrip_witness :
    ((0 : ℚ) ≤ 90 ∧ (90 : ℚ) ≤ 358.6) ∧
    |phase_shift_get ((phase_shift_num 90 : ℤ) : ℚ) - 90| ≤ 360 / 256 :=
  ⟨by norm_num, phase_shift_roundtrip 90 (by norm_num) (by norm_num)⟩

/-- C4: for `v` in the valid range `[10, 1000]`, the value emitted by the
`pulse_width` and `off_time` setters — `round(2 * v, -1) / 2` after range
truncation — is a multiple of 5 nearest to `v` (ties resolved by the
banker's rounding rule of Python's `round`). -/
theorem pulse_width_off_time_nearest_five (v : ℚ) (h1 : 10 ≤ v) (h2 : v ≤ 1000) :
    pulse_width_num v = off_time_num v ∧
    pulse_width_num v = 5 * (pyRound (v / 5) : ℚ) ∧
    (∀ m : ℤ, |pulse_width_num v - v| ≤ |5 * (m : ℚ) - v|) ∧
    pulse_width_set v = "C" ++ pad 4 (5 * pyRound (v / 5)).toNat ∧
    off_time_set v = "c" ++ pad 4 (5 * pyRound (v / 5)).toNat := by
  have heq : pulse_width_num v = 5 * (pyRound (v / 5) : ℚ) := by
    unfold pulse_width_num roundTens
    rw [truncated_range_eq_self h1 h2]
    have harg : 2 * v / 10 = v / 5 := by ring
    rw [harg]
    ring
  have hint : int_of (pulse_width_num v) = 5 * pyRound (v / 5) := by
    have hc : pulse_width_num v = ((5 * pyRound (v / 5) : ℤ) : ℚ) := by
      rw [heq]; push_cast; ring
    rw [hc, int_of_intCast]
  refine ⟨rfl, heq, ?_, ?_, ?_⟩
  · intro m
    have hn := pyRound_nearest (v / 5) m
    have e1 : 5 * (pyRound (v / 5) : ℚ) - v = 5 * ((pyRound (v / 5) : ℚ) - v / 5) := by ring
    have e2 : 5 * (m : ℚ) - v = 5 * ((m : ℚ) - v / 5) := by ring
    rw [heq, e1, e2, abs_mul, abs_mul, abs_of_nonneg (by norm_num : (0 : ℚ) ≤ 5)]
    linarith
  · unfold pulse_width_set
    rw [hint]
  · unfold off_time_set
    show "c" ++ pad 4 (int_of (pulse_width_num v)).toNat = _
    rw [hint]

theorem pulse_width_off_time_witness :
    ((10 : ℚ) ≤ 123 ∧ (123 : ℚ) ≤ 1000) ∧
    (pulse_width_num 123 = off_time_num 123 ∧
     pulse_width_num 123 = 5 * (pyRound ((123 : ℚ) / 5) : ℚ) ∧
     (∀ m : ℤ, |pulse_width_num 123 - 123| ≤ |5 * (m : ℚ) - 123|) ∧
     pulse_width_set 123 = "C" ++ pad 4 (5 * pyRound ((123 : ℚ) / 5)).toNat ∧
     off_time_set 123 = "c" ++ pad 4 (5 * pyRound ((123 : ℚ) / 5)).toNat) :=
  ⟨by norm_num, pulse_width_off_time_nearest_five 123 (by norm_num) (by norm_num)⟩

end Kusg245_250A

namespace Kusg245_250A

open Pymeasure

/-- C8: for every input `v`, the `frequency_fine` setter writes `f` followed
by exactly 7 digits whose numeric value is `v` clamped to
`[2400000, 2500000]` and then rounded to the nearest multiple of 10; the
emitted value is always a multiple of 10 inside `[2400000, 2500000]`. -/
theorem frequency_fine_wire_spec (v : ℚ) :
    ∃ n : ℕ,
      frequency_fine_set v = "f" ++ pad 7 n ∧
      (pad 7 n).length = 7 ∧
      (∀ c ∈ (pad 7 n).data, c.isDigit = true) ∧
      decodeDigits (pad 7 n) = n ∧
      (n : ℚ) = roundTens (truncated_range v 2400000 2500000) ∧
      n % 10 = 0 ∧ 2400000 ≤ n ∧ n ≤ 2500000 := by
  obtain ⟨hlo, hhi⟩ := truncated_range_mem (v := v)
    (by norm_num : (2400000 : ℚ) ≤ 2500000)
  have hdist := roundTens_dist_le (truncated_range v 2400000 2500000)
  obtain ⟨hd1, hd2⟩ := abs_le.mp hdist
  have hkq : roundTens (truncated_range v 2400000 2500000)
      = 10 * (pyRound (truncated_range v 2400000 2500000 / 10) : ℚ) := rfl
  have hklo : 240000 ≤ pyRound (truncated_range v 2400000 2500000 / 10) := by
    by_contra hlt
    push_neg at hlt
    have hle : pyRound (truncated_range v 2400000 2500000 / 10) ≤ 239999 := by omega
    have hq : (pyRound (truncated_range v 2400000 2500000 / 10) : ℚ) ≤ 239999 := by
      exact_mod_cast hle
    rw [hkq] at hd1
    linarith
  have hkhi : pyRound (truncated_range v 2400000 2500000 / 10) ≤ 250000 := by
    by_contra hlt
    push_neg at hlt
    have hle : 250001 ≤ pyRound (truncated_range v 2400000 2500000 / 10) := by omega
    have hq : (250001 : ℚ) ≤ (pyRound (truncated_range v 2400000 2500000 / 10) : ℚ) := by
      exact_mod_cast hle
    rw [hkq] at hd2
    linarith
  have hcast : roundTens (truncated_range v 2400000 2500000)
      = ((10 * pyRound (truncated_range v 2400000 2500000 / 10) : ℤ) : ℚ) := by
    rw [hkq]; push_cast; ring
  have hint : int_of (frequency_fine_num v)
      = 10 * pyRound (truncated_range v 2400000 2500000 / 10) := by
    unfold frequency_fine_num
    rw [hcast, int_of_intCast]
  have htn : (((10 * pyRound (truncated_range v 2400000 2500000 / 10)).toNat : ℤ))
      = 10 * pyRound (truncated_range v 2400000 2500000 / 10) :=
    Int.toNat_of_nonneg (by omega)
  refine ⟨(10 * pyRound (truncated_range v 2400000 2500000 / 10)).toNat,
    ?_, pad_length 7 _, pad_isDigit 7 _, ?_, ?_, by omega, by omega, by omega⟩
  · unfold frequency_fine_set
    rw [hint]
  · rw [decode_pad]
    apply Nat.mod_eq_of_lt
    have h7 : (10 : ℕ) ^ 7 = 10000000 := by norm_num
    omega
  · rw [hcast]
    exact_mod_cast htn

end Kusg245_250A

namespace Kusg245_250A

open Pymeasure

theorem frequency_fine_wire_spec_witness :
    ∃ n : ℕ,
      frequency_fine_set 2450123 = "f" ++ pad 7 n ∧
      (pad 7 n).length = 7 ∧
      (∀ c ∈ (pad 7 n).data, c.isDigit = true) ∧
      decodeDigits (pad 7 n) = n ∧
      (n : ℚ) = roundTens (truncated_range 2450123 2400000 2500000) ∧
      n % 10 = 0 ∧ 2400000 ≤ n ∧ n ≤ 2500000 :=
  frequency_fine_wire_spec 2450123

/-- C6: `turn_on()` emits the bias-enable command `X` strictly before the
RF-enable command `O`, with a positive `time.sleep` strictly between the
two writes, and `shutdown()` emits the RF-disable command `o` strictly
before the bias-disable command `x`; starting from the appropriate initial
amplifier status, neither trace ever reaches a status with RF enabled while
bias is disabled. -/
theorem turn_on_shutdown_safe_order :
    (∀ s : State,
      (turn_on s).2.get? 0 = some (Event.write "X") ∧
      (turn_on s).2.get? 1 = some (Event.sleep 0.5) ∧ (0 : ℚ) < 0.5 ∧
      (turn_on s).2.get? 2 = some (Event.write "O") ∧
      (∀ e ∈ (turn_on s).2,
        e = Event.write "X" ∨ e = Event.sleep 0.5 ∨ e = Event.write "O") ∧
      (∀ a ∈ statesAlong ⟨false, false⟩ (turn_on s).2, a.rf = true → a.bias = true)) ∧
    (∀ s : State,
      (shutdown s).2.get? 0 = some (Event.write "o") ∧
      (shutdown s).2.get? 1 = some (Event.write "x") ∧
      (∀ e ∈ (shutdown s).2, e = Event.write "o" ∨ e = Event.write "x") ∧
      (∀ a ∈ statesAlong ⟨true, true⟩ (shutdown s).2, a.rf = true → a.bias = true)) := by
  constructor
  · intro s
    have hto : (turn_on s).2 = [Event.write "X", Event.sleep 0.5, Event.write "O"] := rfl
    refine ⟨rfl, rfl, by norm_num, rfl, ?_, ?_⟩
    · intro e he
      rw [hto] at he
      simp only [List.mem_cons, List.not_mem_nil, or_false] at he
      rcases he with h | h | h
      · exact Or.inl h
      · exact Or.inr (Or.inl h)
      · exact Or.inr (Or.inr h)
    · have hsa : statesAlong ⟨false, false⟩ (turn_on s).2
          = [⟨false, false⟩, ⟨true, false⟩, ⟨true, false⟩, ⟨true, true⟩] := by
        rw [hto]
        simp [statesAlong, applyEvent]
      intro a ha
      rw [hsa] at ha
      simp only [List.mem_cons, List.not_mem_nil, or_false] at ha
      rcases ha with h | h | h | h
      · rw [h]; intro hrf; cases hrf
      · rw [h]; intro hrf; cases hrf
      · rw [h]; intro hrf; cases hrf
      · rw [h]; intro _; rfl
  · intro s
    have hto : (shutdown s).2 = [Event.write "o", Event.write "x"] := rfl
    refine ⟨rfl, rfl, ?_, ?_⟩
    · intro e he
      rw [hto] at he
      simp only [List.mem_cons, List.not_mem_nil, or_false] at he
      rcases he with h | h
      · exact Or.inl h
      · exact Or.inr h
    · have hsa : statesAlong ⟨true, true⟩ (shutdown s).2
          = [⟨true, true⟩, ⟨true, false⟩, ⟨false, false⟩] := by
        rw [hto]
        simp [statesAlong, applyEvent]
      intro a ha
      rw [hsa] at ha
      simp only [List.mem_cons, List.not_mem_nil, or_false] at ha
      rcases ha with h | h | h
      · rw [h]; intro _; rfl
      · rw [h]; intro hrf; cases hrf
      · rw [h]; intro hrf; cases hrf

end Kusg245_250A

namespace Kusg245_250A

open Pymeasure

theorem turn_on_shutdown_safe_order_witness :
    (turn_on ⟨250, (0, 250)⟩).2.get? 0 = some (Event.write "X") ∧
    (turn_on ⟨250, (0, 250)⟩).2.get? 1 = some (Event.sleep 0.5) ∧ (0 : ℚ) < 0.5 ∧
    (turn_on ⟨250, (0, 250)⟩).2.get? 2 = some (Event.write "O") ∧
    (∀ e ∈ (turn_on ⟨250, (0, 250)⟩).2,
      e = Event.write "X" ∨ e = Event.sleep 0.5 ∨ e = Event.write "O") ∧
    (∀ a ∈ statesAlong ⟨false, false⟩ (turn_on ⟨250, (0, 250)⟩).2,
      a.rf = true → a.bias = true) :=
  turn_on_shutdown_safe_order.1 ⟨250, (0, 250)⟩

end Kusg245_250A

open Pymeasure in
/-- C7: a setter declared with the strict validator `strict_discrete_set`
raises on out-of-domain input and emits no wire command (in particular
`Keithley705.number_of_poles` for any value outside `{0, 1, 2, 4}`), while
a setter declared with the truncating validator `truncated_range` never
raises and clamps out-of-range input to the nearest bound before its single
wire write (in particular `Kusg245_250A.frequency_coarse`). -/
theorem strict_raises_truncated_clamps :
    (∀ v : ℤ, v ∉ ([0, 1, 2, 4] : List ℤ) →
        Keithley705.number_of_poles_set v = .error "ValueError") ∧
    (∀ v : ℤ, v ∈ ([0, 1, 2, 4] : List ℤ) →
        Keithley705.number_of_poles_set v = .ok ("A" ++ toString v ++ "X")) ∧
    (∀ b : Bool, Kusg245_250A.external_enabled_set b
        = .ok (Kusg245_250A.external_enabled_cmd b)) ∧
    (∀ v : ℚ, v < 2400 → Kusg245_250A.frequency_coarse_num v = 2400) ∧
    (∀ v : ℚ, 2500 < v → Kusg245_250A.frequency_coarse_num v = 2500) ∧
    (∀ k : ℤ, 2400 ≤ k → k ≤ 2500 →
        Kusg245_250A.frequency_coarse_num (k : ℚ) = k) := by
  refine ⟨?_, ?_, ?_, ?_, ?_, ?_⟩
  · intro v h
    unfold Keithley705.number_of_poles_set strict_discrete_set
    rw [if_neg h]
    rfl
  · intro v h
    unfold Keithley705.number_of_poles_set strict_discrete_set
    rw [if_pos h]
    rfl
  · intro b
    cases b <;> rfl
  · intro v h
    unfold Kusg245_250A.frequency_coarse_num
    rw [truncated_range_eq_lo h]
    have h24 : (2400 : ℚ) = ((2400 : ℤ) : ℚ) := by norm_num
    rw [h24, int_of_intCast]
  · intro v h
    unfold Kusg245_250A.frequency_coarse_num
    rw [truncated_range_eq_hi h (by norm_num)]
    have h25 : (2500 : ℚ) = ((2500 : ℤ) : ℚ) := by norm_num
    rw [h25, int_of_intCast]
  · intro k h1 h2
    unfold Kusg245_250A.frequency_coarse_num
    rw [truncated_range_eq_self (by exact_mod_cast h1) (by exact_mod_cast h2),
      int_of_intCast]

theorem strict_raises_truncated_clamps_witness :
    ((3 : ℤ) ∉ ([0, 1, 2, 4] : List ℤ) ∧
      Keithley705.number_of_poles_set 3 = Except.error "ValueError") ∧
    ((2350 : ℚ) < 2400 ∧ Kusg245_250A.frequency_coarse_num 2350 = 2400) :=
  ⟨⟨by decide, strict_raises_truncated_clamps.1 3 (by decide)⟩,
   ⟨by norm_num, strict_raises_truncated_clamps.2.2.2.1 2350 (by norm_num)⟩⟩

namespace Pymeasure

/-- The result of the fold inside `truncated_discrete_set` is an element of
the candidate list that minimises the distance to the input value. -/
theorem foldl_nearest (v : ℚ) : ∀ (xs : List ℚ) (x : ℚ),
    xs.foldl (fun best y => if |y - v| < |best - v| then y else best) x ∈ x :: xs ∧
    ∀ y ∈ x :: xs,
      |xs.foldl (fun best y => if |y - v| < |best - v| then y else best) x - v| ≤ |y - v| := by
  intro xs
  induction xs with
  | nil =>
      intro x
      constructor
      · simp
      · intro y hy
        simp only [List.mem_singleton] at hy
        subst hy
        simp
  | cons z zs ih =>
      intro x
      simp only [List.foldl_cons]
      by_cases hc : |z - v| < |x - v|
      · rw [if_pos hc]
        obtain ⟨hmem, hmin⟩ := ih z
        constructor
        · rcases List.mem_cons.mp hmem with h | h
          · rw [h]; simp
          · simp only [List.mem_cons]; right; right; exact h
        · intro y hy
          have hbest := hmin z (List.mem_cons_self _ _)
          rcases List.mem_cons.mp hy with rfl | hy'
          · linarith
          rcases List.mem_cons.mp hy' with rfl | hy''
          · exact hbest
          · exact hmin y (List.mem_cons_of_mem _ hy'')
      · rw [if_neg hc]
        push_neg at hc
        obtain ⟨hmem, hmin⟩ := ih x
        constructor
        · rcases List.mem_cons.mp hmem with h | h
          · rw [h]; simp
          · simp only [List.mem_cons]; right; right; exact h
        · intro y hy
          have hbest := hmin x (List.mem_cons_self _ _)
          rcases List.mem_cons.mp hy with rfl | hy'
          · exact hbest
          rcases List.mem_cons.mp hy' with rfl | hy''
          · linarith
          · exact hmin y (List.mem_cons_of_mem _ hy'')

end Pymeasure

namespace Kusg245_250A

open Pymeasure

theorem reflection_limit_set_eq (v : ℚ) :
    reflection_limit_set v
      = match reflection_limit_values.find? (fun p => decide (p.1 =
          List.foldl (fun best y => if |y - v| < |best - v| then y else best)
            0 [100, 150, 180, 200, 230])) with
        | none => none
        | some p => some ("B" ++ toString p.2) := rfl

/-- C1 counterexample: for the input `120`, which is outside the declared
set `{0, 100, 150, 180, 200, 230}`, the `reflection_limit` setter does not
fail: it truncates to `100` and writes the wire command `B1`. -/
theorem reflection_limit_no_failure_at_120 : reflection_limit_set 120 = some "B1" := by
  rw [reflection_limit_set_eq]
  have hfold : List.foldl (fun best y => if |y - (120:ℚ)| < |best - 120| then y else best)
      0 [100, 150, 180, 200, 230] = 100 := by norm_num
  rw [hfold]
  norm_num [reflection_limit_values, List.find?]
  rfl

/-- C1 amended: the six declared reflection-limit values map bijectively to
the wire codes `0..5`; every other input does not fail — it is truncated to
a nearest declared value, whose wire code is then written. -/
theorem reflection_limit_amended :
    (reflection_limit_set 0 = some "B0" ∧ reflection_limit_set 100 = some "B1" ∧
     reflection_limit_set 150 = some "B2" ∧ reflection_limit_set 180 = some "B3" ∧
     reflection_limit_set 200 = some "B4" ∧ reflection_limit_set 230 = some "B5") ∧
    ∀ v : ℚ, ∃ p ∈ reflection_limit_values,
      reflection_limit_set v = some ("B" ++ toString p.2) ∧
      ∀ w ∈ reflection_limit_values.map Prod.fst, |p.1 - v| ≤ |w - v| := by
  constructor
  · refine ⟨?_, ?_, ?_, ?_, ?_, ?_⟩ <;>
      · rw [reflection_limit_set_eq]
        norm_num [reflection_limit_values, List.find?]
        rfl
  · intro v
    obtain ⟨hmem, hmin⟩ := foldl_nearest v [100, 150, 180, 200, 230] 0
    have hmem' : List.foldl (fun best y => if |y - v| < |best - v| then y else best)
        0 [100, 150, 180, 200, 230] = 0 ∨
        List.foldl (fun best y => if |y - v| < |best - v| then y else best)
        0 [100, 150, 180, 200, 230] = 100 ∨
        List.foldl (fun best y => if |y - v| < |best - v| then y else best)
        0 [100, 150, 180, 200, 230] = 150 ∨
        List.foldl (fun best y => if |y - v| < |best - v| then y else best)
        0 [100, 150, 180, 200, 230] = 180 ∨
        List.foldl (fun best y => if |y - v| < |best - v| then y else best)
        0 [100, 150, 180, 200, 230] = 200 ∨
        List.foldl (fun best y => if |y - v| < |best - v| then y else best)
        0 [100, 150, 180, 200, 230] = 230 := by
      simpa using hmem
    rcases hmem' with h | h | h | h | h | h
    · refine ⟨(0, 0), by norm_num [reflection_limit_values], ?_, ?_⟩
      · rw [reflection_limit_set_eq, h]
        norm_num [reflection_limit_values, List.find?]
      · intro w hw
        have : |List.foldl (fun best y => if |y - v| < |best - v| then y else best)
            0 [100, 150, 180, 200, 230] - v| ≤ |w - v| := by
          apply hmin
          simpa [reflection_limit_values] using hw
        rw [h] at this
        simpa using this
    · refine ⟨(100, 1), by norm_num [reflection_limit_values], ?_, ?_⟩
      · rw [reflection_limit_set_eq, h]
        norm_num [reflection_limit_values, List.find?]
      · intro w hw
        have : |List.foldl (fun best y => if |y - v| < |best - v| then y else best)
            0 [100, 150, 180, 200, 230] - v| ≤ |w - v| := by
          apply hmin
          simpa [reflection_limit_values] using hw
        rw [h] at this
        simpa using this
    · refine ⟨(150, 2), by norm_num [reflection_limit_values], ?_, ?_⟩
      · rw [reflection_limit_set_eq, h]
        norm_num [reflection_limit_values, List.find?]
      · intro w hw
        have : |List.foldl (fun best y => if |y - v| < |best - v| then y else best)
            0 [100, 150, 180, 200, 230] - v| ≤ |w - v| := by
          apply hmin
          simpa [reflection_limit_values] using hw
        rw [h] at this
        simpa using this
    · refine ⟨(180, 3), by norm_num [reflection_limit_values], ?_, ?_⟩
      · rw [reflection_limit_set_eq, h]
        norm_num [reflection_limit_values, List.find?]
      · intro w hw
        have : |List.foldl (fun best y => if |y - v| < |best - v| then y else best)
            0 [100, 150, 180, 200, 230] - v| ≤ |w - v| := by
          apply hmin
          simpa [reflection_limit_values] using hw
        rw [h] at this
        simpa using this
    · refine ⟨(200, 4), by norm_num [reflection_limit_values], ?_, ?_⟩
      · rw [reflection_limit_set_eq, h]
        norm_num [reflection_limit_values, List.find?]
      · intro w hw
        have : |List.foldl (fun best y => if |y - v| < |best - v| then y else best)
            0 [100, 150, 180, 200, 230] - v| ≤ |w - v| := by
          apply hmin
          simpa [reflection_limit_values] using hw
        rw [h] at this
        simpa using this
    · refine ⟨(230, 5), by norm_num [reflection_limit_values], ?_, ?_⟩
      · rw [reflection_limit_set_eq, h]
        norm_num [reflection_limit_values, List.find?]
      · intro w hw
        have : |List.foldl (fun best y => if |y - v| < |best - v| then y else best)
            0 [100, 150, 180, 200, 230] - v| ≤ |w - v| := by
          apply hmin
          simpa [reflection_limit_values] using hw
        rw [h] at this
        simpa using this

theorem reflection_limit_amended_witness :
    ∃ p ∈ reflection_limit_values,
      reflection_limit_set 120 = some ("B" ++ toString p.2) ∧
      ∀ w ∈ reflection_limit_values.map Prod.fst, |p.1 - 120| ≤ |w - 120| :=
  reflection_limit_amended.2 120

end Kusg245_250A
